import Mathlib

/-!
Verification of the transformation pipeline of the StreamlitDatabase
repository (src/streamlit_app.py, src/industry_mapping.py).

Python strings are modelled as lists of characters (`PyStr`); missing
values (pandas NaN) as `Option PyStr`.  Python `str.strip()` is modelled
with ASCII whitespace, and `str.isdigit()` with ASCII digits; all inputs
exercised by the claims are ASCII, where the two coincide exactly.
-/

/-- Python strings, modelled as character lists. -/
abbrev PyStr := List Char

/-- Convert a Lean string literal into the model. -/
def pys (s : String) : PyStr := s.data

/-- The space character (used when joining address parts). -/
def spc : Char := Char.ofNat 32

/-- Python `str.strip()`: drop whitespace from both ends. -/
def pyStrip (s : PyStr) : PyStr :=
  ((s.dropWhile Char.isWhitespace).reverse.dropWhile Char.isWhitespace).reverse

/-- Python `str.replace(c, '')`: delete every occurrence of character `c`. -/
def removeAll (c : Char) (s : PyStr) : PyStr := s.filter (fun a => a != c)

/-- Python `str.isdigit()`: nonempty and all digits. -/
def pyIsDigitStr (s : PyStr) : Bool := !s.isEmpty && s.all Char.isDigit

/-- Python `s.startswith(p)`: `s` starts with `p`. -/
def startsWithS : PyStr → PyStr → Bool
  | _, [] => true
  | [], _ :: _ => false
  | a :: as, b :: bs => a == b && startsWithS as bs

/-- Python `p in s`: substring containment. -/
def containsSub (needle : PyStr) : PyStr → Bool
  | [] => needle.isEmpty
  | c :: rest => startsWithS (c :: rest) needle || containsSub needle rest

/-- Python `str.lower()` (characterwise). -/
def lowerS (s : PyStr) : PyStr := s.map Char.toLower

/-- Pandas `astype(str)` of a possibly missing value: NaN prints as "nan". -/
def pyAstype : Option PyStr → PyStr
  | none => pys "nan"
  | some s => s

/-- The guard of `fix_phone_number`: `val and val.replace('+','').isdigit()
and not val.startswith('+')` on the stripped value. -/
def plusCond (v : PyStr) : Bool :=
  !v.isEmpty && pyIsDigitStr (removeAll '+' v) && !startsWithS v ['+']

/-- `fix_phone_number` from src/streamlit_app.py (lines 236-240):
strip, then prepend '+' when the guard holds. -/
def fix_phone_number (val : PyStr) : PyStr :=
  let v := pyStrip val
  if plusCond v then '+' :: v else v

/-- The phone-normalization step of `process_file` (line 241) applied to a
single cell: `astype(str).str.strip().apply(fix_phone_number)`. -/
def phoneFixCell (v : Option PyStr) : PyStr :=
  fix_phone_number (pyStrip (pyAstype v))

-- ---------- basic lemmas about the string helpers ----------

theorem dropWhile_fix (p : Char → Bool) (l : PyStr) :
    (l.dropWhile p).dropWhile p = l.dropWhile p := by
  induction l with
  | nil => rfl
  | cons a as ih =>
    rw [List.dropWhile_cons]
    by_cases h : p a
    · simp only [if_pos h]; exact ih
    · simp only [if_neg h]; rw [List.dropWhile_cons, if_neg h]

theorem head_not_of_dropWhile_self {p : Char → Bool} {l : PyStr} {a : Char}
    (h : l.dropWhile p = l) (ha : l.head? = some a) : p a = false := by
  cases l with
  | nil => simp at ha
  | cons x xs =>
    have hx : x = a := by simpa using ha
    subst hx
    have := List.dropWhile_eq_self_iff.mp h (by simp)
    simpa using this

theorem getLast?_dropWhile (p : Char → Bool) (l : PyStr)
    (h : l.dropWhile p ≠ []) : (l.dropWhile p).getLast? = l.getLast? := by
  induction l with
  | nil => simp at h
  | cons a as ih =>
    rw [List.dropWhile_cons]
    by_cases hp : p a
    · rw [List.dropWhile_cons, if_pos hp] at h
      rw [if_pos hp, ih h]
      cases as with
      | nil => simp at h
      | cons b bs => rw [List.getLast?_cons_cons]
    · rw [if_neg hp]

theorem dropWhile_eq_self_of_head {p : Char → Bool} {l : PyStr} {a : Char}
    (ha : l.head? = some a) (hp : p a = false) : l.dropWhile p = l := by
  cases l with
  | nil => rfl
  | cons x xs =>
    have hx : x = a := by simpa using ha
    subst hx
    rw [List.dropWhile_cons, if_neg (by simp [hp])]

theorem dropWhile_append_single {p : Char → Bool} {l : PyStr} {c : Char}
    (hl : l.dropWhile p = l) (hc : p c = false) :
    (l ++ [c]).dropWhile p = l ++ [c] := by
  cases l with
  | nil => simpa using dropWhile_eq_self_of_head (l := [c]) rfl hc
  | cons x xs =>
    have hx : p x = false := head_not_of_dropWhile_self hl rfl
    exact dropWhile_eq_self_of_head (a := x) rfl hx

/-- A list already stripped on both ends is a fixed point of `pyStrip`. -/
theorem pyStrip_of_ends {l : PyStr}
    (h1 : l.dropWhile Char.isWhitespace = l)
    (h2 : l.reverse.dropWhile Char.isWhitespace = l.reverse) : pyStrip l = l := by
  unfold pyStrip
  rw [h1, h2, List.reverse_reverse]

theorem pyStrip_reverse_dropWhile (s : PyStr) :
    (pyStrip s).reverse.dropWhile Char.isWhitespace = (pyStrip s).reverse := by
  unfold pyStrip
  rw [List.reverse_reverse]
  exact dropWhile_fix _ _

theorem pyStrip_dropWhile (s : PyStr) :
    (pyStrip s).dropWhile Char.isWhitespace = pyStrip s := by
  unfold pyStrip
  set t := s.dropWhile Char.isWhitespace with ht
  set m := t.reverse.dropWhile Char.isWhitespace with hm
  cases hme : m with
  | nil => simp [hme]
  | cons y ys =>
    have hmne : m ≠ [] := by rw [hme]; simp
    have hlast : m.getLast? = t.head? := by
      rw [hm, getLast?_dropWhile _ _ (by rw [← hm]; exact hmne), List.getLast?_reverse]
    have hhead : m.reverse.head? = t.head? := by rw [List.head?_reverse, hlast]
    cases hth : t.head? with
    | none =>
      have : t = [] := by cases t <;> simp_all
      rw [this] at hm
      simp at hm
      rw [hm] at hme
      simp at hme
    | some a =>
      have hws : Char.isWhitespace a = false := by
        apply head_not_of_dropWhile_self (l := t) _ hth
        rw [ht]; exact dropWhile_fix _ _
      rw [← hme]
      exact dropWhile_eq_self_of_head (by rw [hhead, hth]) hws

/-- Stripping is idempotent. -/
theorem pyStrip_idem (s : PyStr) : pyStrip (pyStrip s) = pyStrip s :=
  pyStrip_of_ends (pyStrip_dropWhile s) (pyStrip_reverse_dropWhile s)

/-- Prepending '+' to a stripped value gives a stripped value. -/
theorem pyStrip_plus_cons (s : PyStr) :
    pyStrip ('+' :: pyStrip s) = '+' :: pyStrip s := by
  apply pyStrip_of_ends
  · exact dropWhile_eq_self_of_head rfl (by decide)
  · rw [List.reverse_cons]
    exact dropWhile_append_single (pyStrip_reverse_dropWhile s) (by decide)

theorem fix_phone_eq (v : PyStr) :
    fix_phone_number v = if plusCond (pyStrip v) then '+' :: pyStrip v else pyStrip v := rfl

theorem isEmpty_eq_false_iff {α : Type} (l : List α) : l.isEmpty = false ↔ l ≠ [] := by
  cases l <;> simp

theorem digit_bne_plus {c : Char} (h : c.isDigit = true) : (c != '+') = true := by
  rw [bne_iff_ne]
  intro hc
  subst hc
  simp [Char.isDigit] at h

/-- The guard of `fix_phone_number`, restated: nonempty, not starting with
'+', at least one digit, and nothing but digits and '+' signs. -/
theorem plusCond_iff (w : PyStr) :
    plusCond w = true ↔
      (w ≠ [] ∧ startsWithS w ['+'] = false ∧ w.any Char.isDigit = true ∧
        w.all (fun c => c.isDigit || c == '+') = true) := by
  unfold plusCond pyIsDigitStr removeAll
  simp only [Bool.and_eq_true, Bool.not_eq_true', List.any_eq_true, List.all_eq_true,
    List.mem_filter, Bool.or_eq_true, isEmpty_eq_false_iff]
  constructor
  · rintro ⟨⟨hne, hfne, hall⟩, hst⟩
    refine ⟨hne, hst, ?_, ?_⟩
    · obtain ⟨c, hc⟩ := List.exists_mem_of_ne_nil _ hfne
      have hc' := List.mem_filter.mp hc
      exact ⟨c, hc'.1, hall c hc'⟩
    · intro c hc
      by_cases hp : (c == '+') = true
      · exact Or.inr hp
      · refine Or.inl (hall c ⟨hc, ?_⟩)
        rw [bne_iff_ne]
        simpa using hp
  · rintro ⟨hne, hst, ⟨c, hcw, hcd⟩, hall⟩
    refine ⟨⟨hne, ?_, ?_⟩, hst⟩
    · intro hnil
      have hcf : c ∈ w.filter (fun a => a != '+') :=
        List.mem_filter.mpr ⟨hcw, digit_bne_plus hcd⟩
      rw [hnil] at hcf
      simp at hcf
    · intro d hd
      rcases hall d hd.1 with h | h
      · exact h
      · exfalso
        have hdp : d = '+' := by simpa using h
        have := hd.2
        rw [hdp] at this
        simp at this

/-- Claim C4 counterexample: the input "12+34" contains a non-digit
character ('+') and does not start with '+', so per the claim it should
pass through unchanged; the code prepends '+' because
`val.replace('+','').isdigit()` first deletes every '+'. -/
theorem C4_counterexample :
    (pys "12+34").any (fun c => !c.isDigit) = true ∧
    startsWithS (pys "12+34") ['+'] = false ∧
    pyStrip (pys "12+34") = pys "12+34" ∧
    fix_phone_number (pys "12+34") = pys "+12+34" ∧
    fix_phone_number (pys "12+34") ≠ pys "12+34" := by decide

/-- Claim C4 (amended): the normalization trims whitespace and prepends '+'
exactly when the trimmed value is nonempty, does not start with '+', has at
least one digit, and consists only of digits and '+' signs (so that
removing every '+' leaves a nonempty all-digit string); every other value
is returned trimmed but otherwise unchanged. -/
theorem C4_amended_fix_phone (v : PyStr) :
    ((pyStrip v ≠ [] ∧ startsWithS (pyStrip v) ['+'] = false ∧
        (pyStrip v).any Char.isDigit = true ∧
        (pyStrip v).all (fun c => c.isDigit || c == '+') = true) →
      fix_phone_number v = '+' :: pyStrip v) ∧
    (¬ (pyStrip v ≠ [] ∧ startsWithS (pyStrip v) ['+'] = false ∧
        (pyStrip v).any Char.isDigit = true ∧
        (pyStrip v).all (fun c => c.isDigit || c == '+') = true) →
      fix_phone_number v = pyStrip v) := by
  constructor
  · intro h
    rw [fix_phone_eq, if_pos ((plusCond_iff (pyStrip v)).mpr h)]
  · intro h
    rw [fix_phone_eq, if_neg (fun hc => h ((plusCond_iff (pyStrip v)).mp hc))]

/-- Claim C4 witness: "1234567" satisfies the guard and gets '+'. -/
theorem C4_amended_fix_phone_witness :
    fix_phone_number (pys "1234567") = '+' :: pyStrip (pys "1234567") :=
  (C4_amended_fix_phone (pys "1234567")).1 (by decide)

theorem plusCond_plus_cons (w : PyStr) : plusCond ('+' :: w) = false := by
  simp [plusCond, startsWithS]

/-- Claim C8: phone normalization is idempotent. -/
theorem C8_fix_phone_idempotent (v : PyStr) :
    fix_phone_number (fix_phone_number v) = fix_phone_number v := by
  rw [fix_phone_eq v]
  by_cases h : plusCond (pyStrip v) = true
  · rw [if_pos h, fix_phone_eq, pyStrip_plus_cons, plusCond_plus_cons]
    simp
  · rw [if_neg h, fix_phone_eq, pyStrip_idem, if_neg h]

-- ---------- country detection (detect_country, lines 40-58) ----------

/-- Missing phone values: `series.fillna('')` before `astype(str)`. -/
def optStr : Option PyStr → PyStr
  | none => []
  | some s => s

/-- Normalization applied to the phone series and to each map key:
`.replace(' ', '').replace('-', '')`. -/
def normKey (k : PyStr) : PyStr := removeAll '-' (removeAll spc k)

/-- The normalized phone value matched against prefixes. -/
def normPhone (v : Option PyStr) : PyStr := normKey (optStr v)

/-- Stable insertion (descending key length), modelling Python's stable
`sorted(..., key=len, reverse=True)`. -/
def insertByLen (x : PyStr × PyStr) : List (PyStr × PyStr) → List (PyStr × PyStr)
  | [] => [x]
  | y :: ys => if x.1.length < y.1.length then y :: insertByLen x ys else x :: y :: ys

def sortDescLen (l : List (PyStr × PyStr)) : List (PyStr × PyStr) :=
  l.foldr insertByLen []

/-- `mask_kz` of detect_country: the value starts with "+76", "+77",
"+7 6" or "+7 7" (the latter two can never match a space-stripped value). -/
def kzMask (s : PyStr) : Bool :=
  startsWithS s (pys "+76") || startsWithS s (pys "+77") ||
    startsWithS s (pys "+7 6") || startsWithS s (pys "+7 7")

/-- The country value after the two hard-coded mask assignments
(Kazakhstan, then Russia) and before the configured-prefix loop. -/
def baseCountry (s : PyStr) : PyStr :=
  if startsWithS s (pys "+7") && !kzMask s then pys "Russian Federation"
  else if kzMask s then pys "Kazakhstan"
  else pys "Unknown/No phone"

/-- `detect_country` (src/streamlit_app.py lines 40-58) applied to a single
cell.  The prefix map is the dict's key/value pairs in insertion order;
keys starting with "+7" are filtered out, the rest are iterated in
descending key length, each matching entry overwriting the current label. -/
def detect_country_val (pm : List (PyStr × PyStr)) (v : Option PyStr) : PyStr :=
  (sortDescLen (pm.filter (fun kv => !startsWithS kv.1 (pys "+7")))).foldl
    (fun acc kv => if startsWithS (normPhone v) (normKey kv.1) then kv.2 else acc)
    (baseCountry (normPhone v))

/-- Claim C1: the code evaluated at the failing input.  With prefixes
"+4" and "+44" (in either insertion order) the input "+441234567" resolves
to the label of the shorter prefix "+4": the loop iterates longest-first
and each later, shorter match overwrites the earlier one. -/
theorem C1_shortest_wins_at_failing_input :
    detect_country_val [(pys "+4", pys "CountryA"), (pys "+44", pys "United Kingdom")]
        (some (pys "+441234567")) = pys "CountryA" ∧
    detect_country_val [(pys "+44", pys "United Kingdom"), (pys "+4", pys "CountryA")]
        (some (pys "+441234567")) = pys "CountryA" ∧
    startsWithS (normPhone (some (pys "+441234567"))) (normKey (pys "+44")) = true ∧
    pys "CountryA" ≠ pys "United Kingdom" := by decide

/-- Claim C9 counterexample: a configured entry whose key does not start
with "+7" (here "+") can match a "+7..." value and overwrite the
hard-coded "Russian Federation" label, so the result is not independent of
the prefix map's contents. -/
theorem C9_counterexample :
    startsWithS (normPhone (some (pys "+71234"))) (pys "+7") = true ∧
    detect_country_val [(pys "+", pys "PlusLand")] (some (pys "+71234")) = pys "PlusLand" ∧
    pys "PlusLand" ≠ pys "Russian Federation" := by decide

theorem mem_insertByLen {x y : PyStr × PyStr} {l : List (PyStr × PyStr)} :
    y ∈ insertByLen x l ↔ y = x ∨ y ∈ l := by
  induction l with
  | nil => simp [insertByLen]
  | cons a as ih =>
    unfold insertByLen
    by_cases h : x.1.length < a.1.length
    · rw [if_pos h]
      simp only [List.mem_cons, ih]
      tauto
    · rw [if_neg h]
      simp only [List.mem_cons]

theorem sortDescLen_cons (a : PyStr × PyStr) (l : List (PyStr × PyStr)) :
    sortDescLen (a :: l) = insertByLen a (sortDescLen l) := rfl

theorem mem_sortDescLen {y : PyStr × PyStr} {l : List (PyStr × PyStr)} :
    y ∈ sortDescLen l ↔ y ∈ l := by
  induction l with
  | nil => simp [sortDescLen]
  | cons a as ih =>
    rw [sortDescLen_cons, mem_insertByLen, ih]
    simp [eq_comm]

theorem foldl_no_match {s : PyStr} (acc : PyStr) (l : List (PyStr × PyStr))
    (h : ∀ kv ∈ l, startsWithS s (normKey kv.1) = false) :
    l.foldl (fun acc kv => if startsWithS s (normKey kv.1) then kv.2 else acc) acc = acc := by
  induction l generalizing acc with
  | nil => rfl
  | cons x xs ih =>
    rw [List.foldl_cons, if_neg (by simp [h x (List.mem_cons_self x xs)])]
    exact ih acc (fun kv hkv => h kv (List.mem_cons_of_mem x hkv))

theorem mem_of_startsWithS {s p : PyStr} (h : startsWithS s p = true) :
    ∀ c ∈ p, c ∈ s := by
  induction p generalizing s with
  | nil => simp
  | cons b bs ih =>
    cases s with
    | nil => simp [startsWithS] at h
    | cons a as =>
      rw [startsWithS, Bool.and_eq_true] at h
      obtain ⟨hab, hrest⟩ := h
      intro c hc
      rcases List.mem_cons.mp hc with rfl | hc'
      · have : a = c := by simpa using hab
        rw [← this]
        exact List.mem_cons_self a as
      · exact List.mem_cons_of_mem _ (ih hrest c hc')

theorem not_mem_removeAll (c : Char) (l : PyStr) : c ∉ removeAll c l := by
  simp [removeAll, List.mem_filter]

theorem spc_not_mem_normKey (k : PyStr) : spc ∉ normKey k := by
  intro h
  exact not_mem_removeAll spc k (List.mem_of_mem_filter h)

theorem kzMask_dead_mask1 (k : PyStr) : startsWithS (normKey k) (pys "+7 6") = false := by
  cases hb : startsWithS (normKey k) (pys "+7 6")
  · rfl
  · exact absurd (mem_of_startsWithS hb spc (by decide)) (spc_not_mem_normKey k)

theorem kzMask_dead_mask2 (k : PyStr) : startsWithS (normKey k) (pys "+7 7") = false := by
  cases hb : startsWithS (normKey k) (pys "+7 7")
  · rfl
  · exact absurd (mem_of_startsWithS hb spc (by decide)) (spc_not_mem_normKey k)

/-- On space-free values the Kazakhstan mask is just "+76"-or-"+77". -/
theorem kzMask_normPhone (v : Option PyStr) :
    kzMask (normPhone v) =
      (startsWithS (normPhone v) (pys "+76") || startsWithS (normPhone v) (pys "+77")) := by
  unfold kzMask
  rw [normPhone, kzMask_dead_mask1, kzMask_dead_mask2]
  simp

/-- Claim C9 (amended): for a value that, space- and hyphen-stripped,
starts with "+7", detection returns "Kazakhstan" when it starts with "+76"
or "+77" and "Russian Federation" otherwise, and entries whose raw key
starts with "+7" are always skipped — PROVIDED no configured entry whose
raw key does not start with "+7" has a normalized key that is a prefix of
the normalized value (otherwise such an entry overwrites the result). -/
theorem C9_amended_plus7_hardcoded (pm : List (PyStr × PyStr)) (v : Option PyStr)
    (h7 : startsWithS (normPhone v) (pys "+7") = true)
    (hmap : ∀ kv ∈ pm, startsWithS kv.1 (pys "+7") = false →
      startsWithS (normPhone v) (normKey kv.1) = false) :
    detect_country_val pm v =
      (if startsWithS (normPhone v) (pys "+76") || startsWithS (normPhone v) (pys "+77")
       then pys "Kazakhstan" else pys "Russian Federation") := by
  unfold detect_country_val
  rw [foldl_no_match]
  · unfold baseCountry
    rw [kzMask_normPhone, h7]
    by_cases hk :
        (startsWithS (normPhone v) (pys "+76") || startsWithS (normPhone v) (pys "+77")) = true
    · rw [hk]
      simp
    · rw [Bool.not_eq_true] at hk
      rw [hk]
      simp
  · intro kv hkv
    have hmem : kv ∈ pm.filter (fun kv => !startsWithS kv.1 (pys "+7")) :=
      mem_sortDescLen.mp hkv
    have h1 := List.mem_filter.mp hmem
    exact hmap kv h1.1 (by simpa using h1.2)

/-- Claim C9 witness: under the default prefix map, "+77011112222" goes to
Kazakhstan. -/
theorem C9_amended_witness :
    detect_country_val
      [(pys "+1", pys "United States/Canada"), (pys "+44", pys "United Kingdom")]
      (some (pys "+77011112222")) = pys "Kazakhstan" := by
  rw [C9_amended_plus7_hardcoded _ _ (by decide) (by decide)]
  decide

/-- A value whose normalized key starts with '+' cannot be a prefix of
"nan". -/
theorem startsWith_nan_false {x : PyStr} (h : startsWithS x ['+'] = true) :
    startsWithS (pys "nan") x = false := by
  cases x with
  | nil => simp [startsWithS] at h
  | cons a as =>
    rw [startsWithS, Bool.and_eq_true] at h
    have ha : a = '+' := by simpa using h.1
    subst ha
    have hstep : startsWithS (pys "nan") ('+' :: as) =
        (('n' == '+') && startsWithS (pys "an") as) := rfl
    rw [hstep]
    simp

/-- Claim C10: in the pipeline, a missing phone value is coerced by
`astype(str)` to the literal string "nan", which `fix_phone_number` leaves
unchanged; under any prefix map whose normalized keys all start with '+',
"nan" then resolves to the unknown-country sentinel. -/
theorem C10_missing_phone_becomes_nan (pm : List (PyStr × PyStr))
    (hpm : ∀ kv ∈ pm, startsWithS (normKey kv.1) ['+'] = true) :
    phoneFixCell none = pys "nan" ∧
    detect_country_val pm (some (pys "nan")) = pys "Unknown/No phone" := by
  refine ⟨by decide, ?_⟩
  unfold detect_country_val
  rw [foldl_no_match]
  · decide
  · intro kv hkv
    have hmem := List.mem_filter.mp (mem_sortDescLen.mp hkv)
    have hnorm : normPhone (some (pys "nan")) = pys "nan" := by decide
    rw [hnorm]
    exact startsWith_nan_false (hpm kv hmem.1)

/-- Claim C10 witness: the default prefix map's keys all start with '+'. -/
theorem C10_missing_phone_witness :
    phoneFixCell none = pys "nan" ∧
    detect_country_val
      [(pys "+1", pys "United States/Canada"), (pys "+44", pys "United Kingdom")]
      (some (pys "nan")) = pys "Unknown/No phone" :=
  C10_missing_phone_becomes_nan
    [(pys "+1", pys "United States/Canada"), (pys "+44", pys "United Kingdom")]
    (by decide)

-- ---------- address consolidation (clean_address_columns, lines 169-206) ----------

/-- `str(row[col]).strip() if pd.notna(row[col]) else ""`. -/
def optStrip : Option PyStr → PyStr
  | none => []
  | some s => pyStrip s

/-- The row guard of `replace_address`:
`pd.notna(addr1) and pd.notna(country) and str(addr1).strip() == str(country).strip()`. -/
def addrSame (a1 ctry : Option PyStr) : Bool :=
  match a1, ctry with
  | some x, some c => pyStrip x == pyStrip c
  | _, _ => false

/-- `replace_address` (src/streamlit_app.py lines 182-193) for one row:
drop part 1 when it equals the country after stripping, else keep all
three parts; parts are stripped, space-joined and the result stripped. -/
def replace_address (a1 a2 a3 ctry : Option PyStr) : PyStr :=
  if addrSame a1 ctry then
    pyStrip (optStrip a2 ++ spc :: optStrip a3)
  else
    pyStrip (optStrip a1 ++ spc :: (optStrip a2 ++ spc :: optStrip a3))

/-- Claim-side wording: strip each part, space-join, strip the result. -/
def joinParts (parts : List (List Char)) : PyStr :=
  pyStrip (List.intercalate [spc] parts)

theorem intercalate_two (s x y : List Char) :
    List.intercalate s [x, y] = x ++ s ++ y := by
  simp [List.intercalate, List.intersperse]

theorem intercalate_three (s x y z : List Char) :
    List.intercalate s [x, y, z] = x ++ s ++ y ++ s ++ z := by
  simp [List.intercalate, List.intersperse]

/-- Claim C3 counterexample: the comparison in the code is case-sensitive
("GERMANY" vs "Germany" differ), so a row whose part 1 equals the country
only up to case keeps part 1, contradicting the claimed case-insensitive
comparison. -/
theorem C3_counterexample :
    lowerS (pyStrip (pys "GERMANY")) = lowerS (pyStrip (pys "Germany")) ∧
    replace_address (some (pys "GERMANY")) (some (pys "Berlin")) (some (pys "10115"))
        (some (pys "Germany")) = pys "GERMANY Berlin 10115" ∧
    replace_address (some (pys "GERMANY")) (some (pys "Berlin")) (some (pys "10115"))
        (some (pys "Germany")) ≠ pys "Berlin 10115" := by decide

/-- Claim C3 (amended): with all three address parts and the country
present as columns, if part 1 equals the country under a whitespace-
trimmed, CASE-SENSITIVE comparison (both values non-missing), the result
is parts 2 and 3 space-joined; otherwise parts 1, 2 and 3 space-joined;
missing parts contribute empty strings, never "N/A" literals. -/
theorem C3_amended_replace_address (a1 a2 a3 c : Option PyStr) :
    ((∃ x cc, a1 = some x ∧ c = some cc ∧ pyStrip x = pyStrip cc) →
      replace_address a1 a2 a3 c = joinParts [optStrip a2, optStrip a3]) ∧
    ((∀ x cc, a1 = some x → c = some cc → pyStrip x ≠ pyStrip cc) →
      replace_address a1 a2 a3 c = joinParts [optStrip a1, optStrip a2, optStrip a3]) := by
  constructor
  · rintro ⟨x, cc, rfl, rfl, heq⟩
    have hsame : addrSame (some x) (some cc) = true := by
      simp [addrSame, heq]
    rw [replace_address, if_pos hsame, joinParts, intercalate_two]
    simp
  · intro h
    have hsame : addrSame a1 c = false := by
      cases a1 with
      | none => rfl
      | some x =>
        cases c with
        | none => rfl
        | some cc =>
          simp [addrSame]
          exact h x cc rfl rfl
    rw [replace_address, if_neg (by simp [hsame]), joinParts, intercalate_three]
    simp

/-- Claim C3 witness: the spec's own example, exact-case equality. -/
theorem C3_amended_witness :
    replace_address (some (pys "Germany")) (some (pys "Berlin")) (some (pys "10115"))
        (some (pys "Germany")) =
      joinParts [optStrip (some (pys "Berlin")), optStrip (some (pys "10115"))] :=
  (C3_amended_replace_address _ _ _ _).1 ⟨_, _, rfl, rfl, rfl⟩

-- ---------- first-seen deduplication (pandas Series.unique) ----------

/-- First-seen deduplication with an accumulator of already-seen values:
`series.unique()` keeps the first occurrence of each distinct value. -/
def dedupAux {α : Type} [DecidableEq α] (seen : List α) : List α → List α
  | [] => []
  | x :: xs => if x ∈ seen then dedupAux seen xs else x :: dedupAux (x :: seen) xs

/-- pandas `unique`: distinct values in order of first occurrence. -/
def firstSeen {α : Type} [DecidableEq α] (l : List α) : List α := dedupAux [] l

theorem dedupAux_mem {α : Type} [DecidableEq α] (seen l : List α) (a : α) :
    a ∈ dedupAux seen l ↔ a ∈ l ∧ a ∉ seen := by
  induction l generalizing seen with
  | nil => simp [dedupAux]
  | cons x xs ih =>
    by_cases hx : x ∈ seen
    · rw [dedupAux, if_pos hx, ih]
      constructor
      · rintro ⟨h1, h2⟩
        exact ⟨List.mem_cons_of_mem x h1, h2⟩
      · rintro ⟨h1, h2⟩
        rcases List.mem_cons.mp h1 with rfl | h1'
        · exact absurd hx h2
        · exact ⟨h1', h2⟩
    · rw [dedupAux, if_neg hx]
      simp only [List.mem_cons, ih, List.mem_cons, not_or]
      constructor
      · rintro (rfl | ⟨h1, h2, h3⟩)
        · exact ⟨Or.inl rfl, hx⟩
        · exact ⟨Or.inr h1, h3⟩
      · rintro ⟨rfl | h1, h2⟩
        · exact Or.inl rfl
        · by_cases hax : a = x
          · exact Or.inl hax
          · exact Or.inr ⟨h1, hax, h2⟩

theorem dedupAux_nodup {α : Type} [DecidableEq α] (seen l : List α) :
    (dedupAux seen l).Nodup := by
  induction l generalizing seen with
  | nil => simp [dedupAux]
  | cons x xs ih =>
    by_cases hx : x ∈ seen
    · rw [dedupAux, if_pos hx]
      exact ih seen
    · rw [dedupAux, if_neg hx]
      refine List.nodup_cons.mpr ⟨?_, ih (x :: seen)⟩
      intro hmem
      exact ((dedupAux_mem (x :: seen) xs x).mp hmem).2 (List.mem_cons_self x seen)

theorem dedupAux_sublist {α : Type} [DecidableEq α] (seen l : List α) :
    (dedupAux seen l).Sublist l := by
  induction l generalizing seen with
  | nil => simp [dedupAux]
  | cons x xs ih =>
    by_cases hx : x ∈ seen
    · rw [dedupAux, if_pos hx]
      exact (ih seen).cons x
    · rw [dedupAux, if_neg hx]
      exact (ih (x :: seen)).cons₂ x

theorem firstSeen_mem {α : Type} [DecidableEq α] (l : List α) (a : α) :
    a ∈ firstSeen l ↔ a ∈ l := by
  rw [firstSeen, dedupAux_mem]
  simp

theorem firstSeen_nodup {α : Type} [DecidableEq α] (l : List α) :
    (firstSeen l).Nodup := dedupAux_nodup [] l

theorem firstSeen_sublist {α : Type} [DecidableEq α] (l : List α) :
    (firstSeen l).Sublist l := dedupAux_sublist [] l

theorem firstSeen_length_le {α : Type} [DecidableEq α] (l : List α) :
    (firstSeen l).length ≤ l.length := (firstSeen_sublist l).length_le



/-- The index of the first occurrence of `a` in a list. -/
def firstIdx {α : Type} [DecidableEq α] (a : α) : List α → Nat
  | [] => 0
  | x :: xs => if x = a then 0 else firstIdx a xs + 1

theorem firstIdx_cons_self {α : Type} [DecidableEq α] (a : α) (xs : List α) :
    firstIdx a (a :: xs) = 0 := by
  simp [firstIdx]

theorem firstIdx_cons_ne {α : Type} [DecidableEq α] {x a : α} (xs : List α)
    (h : x ≠ a) : firstIdx a (x :: xs) = firstIdx a xs + 1 := by
  simp [firstIdx, h]

theorem dedupAux_pairwise_idx {α : Type} [DecidableEq α] (seen l : List α) :
    (dedupAux seen l).Pairwise (fun a b => firstIdx a l < firstIdx b l) := by
  induction l generalizing seen with
  | nil => simp [dedupAux]
  | cons x xs ih =>
    by_cases hx : x ∈ seen
    · rw [dedupAux, if_pos hx]
      refine (ih seen).imp_of_mem ?_
      intro a b ha hb hab
      have ha' := (dedupAux_mem seen xs a).mp ha
      have hb' := (dedupAux_mem seen xs b).mp hb
      have hax : x ≠ a := fun h => ha'.2 (h ▸ hx)
      have hbx : x ≠ b := fun h => hb'.2 (h ▸ hx)
      rw [firstIdx_cons_ne _ hax, firstIdx_cons_ne _ hbx]
      exact Nat.succ_lt_succ hab
    · rw [dedupAux, if_neg hx]
      refine List.pairwise_cons.mpr ⟨?_, ?_⟩
      · intro b hb
        have hb' := (dedupAux_mem (x :: seen) xs b).mp hb
        have hbx : x ≠ b := fun h => hb'.2 (h ▸ List.mem_cons_self x seen)
        rw [firstIdx_cons_self, firstIdx_cons_ne _ hbx]
        exact Nat.succ_pos _
      · refine (ih (x :: seen)).imp_of_mem ?_
        intro a b ha hb hab
        have ha' := (dedupAux_mem (x :: seen) xs a).mp ha
        have hb' := (dedupAux_mem (x :: seen) xs b).mp hb
        have hax : x ≠ a := fun h => ha'.2 (h ▸ List.mem_cons_self x seen)
        have hbx : x ≠ b := fun h => hb'.2 (h ▸ List.mem_cons_self x seen)
        rw [firstIdx_cons_ne _ hax, firstIdx_cons_ne _ hbx]
        exact Nat.succ_lt_succ hab

/-- Elements of `firstSeen l` are ordered by first occurrence in `l`. -/
theorem firstSeen_pairwise_firstIdx {α : Type} [DecidableEq α] (l : List α) :
    (firstSeen l).Pairwise (fun a b => firstIdx a l < firstIdx b l) :=
  dedupAux_pairwise_idx [] l

-- ---------- consolidation (lines 480-547) ----------

/-- A row restricted to the three mergeable columns.  Modelled for the
code path where the email and website columns both exist; a column whose
value a row lacks holds `none` (pandas NaN). -/
structure CRow where
  email : Option PyStr
  phone : Option PyStr
  web : Option PyStr
deriving DecidableEq

/-- Python `str.split(sep)`. -/
def splitCh (sep : Char) : PyStr → List PyStr
  | [] => [[]]
  | c :: rest =>
    match splitCh sep rest with
    | [] => [[]]
    | h :: t => if c == sep then [] :: h :: t else (c :: h) :: t

/-- `normalize_url` of the consolidation block (lines 497-501):
`url.split('/')[2].lower() if '//' in url else url.lower()`. -/
def normalize_url_consol (u : PyStr) : PyStr :=
  if containsSub (pys "//") u then lowerS ((splitCh '/' u).getD 2 []) else lowerS u

/-- The hard-coded free-mail-provider denylist (lines 504-507). -/
def free_email_domains : List PyStr :=
  [pys "gmail.com", pys "hotmail.com", pys "yahoo.com", pys "outlook.com",
   pys "aol.com", pys "icloud.com", pys "mail.ru", pys "yandex.ru",
   pys "protonmail.com", pys "zoho.com", pys "gmx.com", pys "mail.com",
   pys "bk.ru", pys "inbox.ru", pys "list.ru", pys "rambler.ru"]

/-- `extract_company_identifier` (lines 509-520): website domain when the
website is present, else the email domain unless it is a free provider. -/
def extract_company_identifier (r : CRow) : Option PyStr :=
  match r.web with
  | some u => some (normalize_url_consol u)
  | none =>
    match r.email with
    | some e =>
      if containsSub ['@'] e then
        (if free_email_domains.contains (lowerS ((splitCh '@' e).getLastD [])) then none
         else some (lowerS ((splitCh '@' e).getLastD [])))
      else none
    | none => none

/-- Rows that receive a company identifier, tagged with it; rows with no
identifier are dropped (`dropna(subset=[company_identifier_col])`). -/
def taggedRows (rows : List CRow) : List (PyStr × CRow) :=
  rows.filterMap (fun r => (extract_company_identifier r).map (fun c => (c, r)))

/-- The non-missing values of one mergeable column over one group, in row
order (`series.dropna()` within `groupby`). -/
def groupVals (trs : List (PyStr × CRow)) (c : PyStr) (f : CRow → Option PyStr) : List PyStr :=
  (trs.filter (fun rc => rc.1 == c)).filterMap (fun rc => f rc.2)

/-- `'; '.join(...)` of `consolidate_column` (lines 531-533). -/
def semiJoin (parts : List PyStr) : PyStr := List.intercalate (pys "; ") parts

/-- An output row of consolidation: the surviving row of a group with its
mergeable fields replaced by the semicolon-joined distinct values. -/
structure MRow where
  cid : PyStr
  email : PyStr
  phone : PyStr
  web : PyStr
deriving DecidableEq

/-- The consolidation block (lines 522-547): tag rows with identifiers,
drop identifier-less rows, per group replace each mergeable column with
the 'il'-free semicolon-join of its distinct non-missing values
(`dropna().unique()` preserves first occurrence), then keep only the first
row of each group (`drop_duplicates(subset=[company_identifier_col])`). -/
def consolidateRows (rows : List CRow) : List MRow :=
  let trs := taggedRows rows
  (firstSeen (trs.map Prod.fst)).map (fun c =>
    ⟨c, semiJoin (firstSeen (groupVals trs c CRow.email)),
        semiJoin (firstSeen (groupVals trs c CRow.phone)),
        semiJoin (firstSeen (groupVals trs c CRow.web))⟩)

/-- Claim-side specification of one merged field: it is the semicolon join
of a list that contains exactly the distinct non-missing group values —
every group value is in the list, the list has no duplicates (so each
value appears exactly once) — ordered by first occurrence. -/
def mergedSpec (vals : List PyStr) (merged : PyStr) : Prop :=
  ∃ parts : List PyStr,
    merged = semiJoin parts ∧
    parts.Sublist vals ∧
    (∀ v, v ∈ parts ↔ v ∈ vals) ∧
    parts.Nodup ∧
    parts.Pairwise (fun a b => firstIdx a vals < firstIdx b vals)

/-- Claim C5: consolidation is a many-to-one reduction — the output has at
most as many rows as the input, and each output row's merged email, phone
and website fields are the semicolon-joins of the group's distinct
non-missing values, each appearing exactly once, in first-seen order. -/
theorem C5_consolidation_reduction (rows : List CRow) :
    (consolidateRows rows).length ≤ rows.length ∧
    (∀ out ∈ consolidateRows rows,
      mergedSpec (groupVals (taggedRows rows) out.cid CRow.email) out.email ∧
      mergedSpec (groupVals (taggedRows rows) out.cid CRow.phone) out.phone ∧
      mergedSpec (groupVals (taggedRows rows) out.cid CRow.web) out.web) := by
  constructor
  · have h1 : (consolidateRows rows).length =
        (firstSeen ((taggedRows rows).map Prod.fst)).length := by
      rw [consolidateRows]
      simp
    have h2 := firstSeen_length_le ((taggedRows rows).map Prod.fst)
    have h3 : ((taggedRows rows).map Prod.fst).length = (taggedRows rows).length := by simp
    have h4 : (taggedRows rows).length ≤ rows.length := List.length_filterMap_le _ _
    omega
  · intro out hout
    obtain ⟨c, hc, rfl⟩ := List.mem_map.mp hout
    refine ⟨?_, ?_, ?_⟩ <;>
      exact ⟨_, rfl, firstSeen_sublist _, firstSeen_mem _,
        firstSeen_nodup _, firstSeen_pairwise_firstIdx _⟩

/-- Two rows of the same company (non-free email domain), no websites. -/
def demoRows : List CRow :=
  [⟨some (pys "a@acme.com"), some (pys "+111"), none⟩,
   ⟨some (pys "b@acme.com"), some (pys "+222"), none⟩]

/-- Claim C5 witness: the two demo rows merge into one with both emails. -/
theorem C5_consolidation_witness :
    (consolidateRows demoRows).length ≤ demoRows.length ∧
    mergedSpec (groupVals (taggedRows demoRows) (pys "acme.com") CRow.email)
      (pys "a@acme.com; b@acme.com") := by
  refine ⟨(C5_consolidation_reduction demoRows).1, ?_⟩
  exact ((C5_consolidation_reduction demoRows).2
    ⟨pys "acme.com", pys "a@acme.com; b@acme.com", pys "+111; +222", []⟩ (by decide)).1

-- ---------- industry categorization (src/industry_mapping.py, lines 2-135) ----------

/-- `industry_mapping`: main category paired with its subcategory keys, in
dict insertion order.  In the source each subcategory key maps to an
identical canonical label; only the keys take part in
`map_to_main_and_subcategory`, so the value side is omitted. -/
def industry_mapping : List (String × List String) := [
  ("Agriculture & Food",
    ["Crop farm", "Livestock farm", "Fishery", "Agricultural machinery supplier", "Food processing company", "Dairy producer", "Meat processing plant", "Bakery", "Beverage company", "Fertilizer manufacturer"]),
  ("Business Services",
    ["Corporate office", "Business center", "Consulting firm", "Law firm", "Accounting firm", "Marketing agency", "Recruitment agency", "Non-profit organization", "Research institute", "Bank", "Insurance company", "Asset management firm", "Venture capital firm", "Fintech startup"]),
  ("Chemicals, Pharmaceuticals & Plastics",
    ["Chemical manufacturer", "Industrial chemicals wholesaler", "Pharmaceutical company", "Biotechnology firm"]),
  ("Construction",
    ["Construction contractor", "Building materials supplier", "Architecture firm", "Property developer", "Real estate agency"]),
  ("Education, Training & Organisations",
    ["School", "E-learning provider"]),
  ("Electrical, Electronics & Optical",
    ["Electrical products wholesaler", "Electrical equipment supplier", "Electrical engineer", "Hardware manufacturer", "Semiconductor manufacturer", "Telecommunications equipment supplier", "Telecommunications service provider", "Telecommunications contractor", "Cable company", "Security system supplier"]),
  ("Energy, Environment",
    ["Oil refinery", "Oil & natural gas company", "Oil field equipment supplier", "Oil wholesaler", "Diesel fuel supplier", "Oil store", "Oilfield", "Solar energy company", "Solar energy system service", "Solar energy equipment supplier", "Solar hot water system supplier", "Electric utility company", "Power station", "Energy equipment and solutions", "Coal mining", "Coal processing", "Wind energy company", "Hydropower plant"]),
  ("IT, Internet & R&D",
    ["Software company", "IT services provider", "E-commerce platform", "Cybersecurity firm", "AI solutions provider"]),
  ("Leisure & Tourism",
    ["TV broadcaster", "Film production company", "Music label", "Game developer", "Creative agency"]),
  ("Metals, Machinery & Engineering",
    ["Industrial equipment supplier", "Equipment rental agency", "Manufacturer", "Shipyard", "Shipbuilding and repair company", "Metal processing", "Steel manufacturer", "Car manufacturer", "Aerospace company", "Defense contractor", "Automation solutions provider"]),
  ("Minerals",
    ["Mining company", "Mineral processing"]),
  ("Paper, Printing & Publishing",
    ["Paper mill", "Packaging company", "Printing service"]),
  ("Retail & Traders",
    ["Retail chain", "Consumer electronics retailer", "Luxury brand", "Household products manufacturer"]),
  ("Textiles, Clothing, Leather, Watchmaking, Jewellery",
    ["Textile manufacturer", "Clothing store"]),
  ("Transport & Logistics",
    ["Distribution service", "Shipping company", "Airline", "Railway operator", "Trucking company", "Warehouse", "Courier service"])]

/-- `map_to_main_and_subcategory` (src/streamlit_app.py lines 332-336,
repeated at 386-390): iterate the taxonomy in insertion order; the first
main category whose subcategory keys contain the value wins; otherwise
("Other", value). -/
def map_to_main_and_subcategory (v : String) : String × String :=
  match industry_mapping.find? (fun p => p.2.contains v) with
  | some p => (p.1, v)
  | none => ("Other", v)

/-- The taxonomy's global uniqueness invariant: subcategory keys are
unique across the whole taxonomy. -/
theorem industry_subkeys_nodup : ((industry_mapping.map Prod.snd).flatten).Nodup := by decide

theorem unique_main_of_nodup {l : List (String × List String)}
    (h : ((l.map Prod.snd).flatten).Nodup) {m1 m2 : String} {subs1 subs2 : List String}
    (h1 : (m1, subs1) ∈ l) (h2 : (m2, subs2) ∈ l) {v : String}
    (hv1 : v ∈ subs1) (hv2 : v ∈ subs2) : m1 = m2 ∧ subs1 = subs2 := by
  induction l with
  | nil => simp at h1
  | cons p rest ih =>
    rw [List.map_cons, List.flatten_cons, List.nodup_append] at h
    obtain ⟨hp, hrest, hdisj⟩ := h
    rcases List.mem_cons.mp h1 with rfl | h1'
    · rcases List.mem_cons.mp h2 with heq | h2'
      · simp only [Prod.mk.injEq] at heq
        exact ⟨heq.1.symm, heq.2.symm⟩
      · exfalso
        have hv2' : v ∈ (rest.map Prod.snd).flatten :=
          List.mem_flatten.mpr ⟨subs2, List.mem_map.mpr ⟨(m2, subs2), h2', rfl⟩, hv2⟩
        exact hdisj hv1 hv2'
    · rcases List.mem_cons.mp h2 with rfl | h2'
      · exfalso
        have hv1' : v ∈ (rest.map Prod.snd).flatten :=
          List.mem_flatten.mpr ⟨subs1, List.mem_map.mpr ⟨(m1, subs1), h1', rfl⟩, hv1⟩
        exact hdisj hv2 hv1'
      · exact ih hrest h1' h2'

/-- Claim C6: industry categorization is total — every value yields exactly
one (main, sub) pair whose subcategory component is the original value
(never null); a value occurring among a taxonomy entry's subcategory keys
yields that entry's main category (well-defined by key uniqueness); an
unrecognized value yields ("Other", value). -/
theorem C6_industry_total (v : String) :
    (map_to_main_and_subcategory v).2 = v ∧
    (∀ m subs, (m, subs) ∈ industry_mapping → v ∈ subs →
      (map_to_main_and_subcategory v).1 = m) ∧
    ((∀ p ∈ industry_mapping, v ∉ p.2) →
      map_to_main_and_subcategory v = ("Other", v)) := by
  refine ⟨?_, ?_, ?_⟩
  · unfold map_to_main_and_subcategory
    cases industry_mapping.find? (fun p => p.2.contains v) <;> rfl
  · intro m subs hmem hv
    unfold map_to_main_and_subcategory
    cases hf : industry_mapping.find? (fun p => p.2.contains v) with
    | none =>
      exfalso
      have hnone := List.find?_eq_none.mp hf (m, subs) hmem
      simp at hnone
      exact hnone hv
    | some p =>
      have hpmem : p ∈ industry_mapping := List.mem_of_find?_eq_some hf
      have hvp : v ∈ p.2 := by simpa using List.find?_some hf
      have huniq := unique_main_of_nodup industry_subkeys_nodup hpmem hmem hvp hv
      exact huniq.1
  · intro h
    unfold map_to_main_and_subcategory
    rw [List.find?_eq_none.mpr ?_]
    · intro x hx
      simpa using h x hx

/-- Claim C6 witness: "Bakery" is an Agriculture & Food subcategory key. -/
theorem C6_industry_witness :
    (map_to_main_and_subcategory "Bakery").1 = "Agriculture & Food" ∧
    map_to_main_and_subcategory "Quantum bakery" = ("Other", "Quantum bakery") := by
  constructor
  · exact (C6_industry_total "Bakery").2.1 "Agriculture & Food"
      ["Crop farm", "Livestock farm", "Fishery", "Agricultural machinery supplier",
       "Food processing company", "Dairy producer", "Meat processing plant", "Bakery",
       "Beverage company", "Fertilizer manufacturer"]
      (by decide) (by decide)
  · exact (C6_industry_total "Quantum bakery").2.2 (by decide)

-- ---------- the process_file pipeline (lines 208-262) ----------

/-- An in-memory table: column names in order, and rows as (index label,
cells) pairs, cells aligned with `cols` positionally. -/
structure Table where
  cols : List PyStr
  rows : List (Nat × List (Option PyStr))
deriving DecidableEq

/-- Number of non-missing values in column `j` (`df.notna().sum()`). -/
def notnaCount (t : Table) (j : Nat) : Nat :=
  (t.rows.filter (fun r => (r.2.getD j none).isSome)).length

/-- Step 1, `df.loc[:, df.notna().sum() >= 100]`: keep only columns with
at least 100 non-missing values. -/
def pruneCols (t : Table) : Table :=
  let keep := (List.range t.cols.length).filter (fun j => decide (100 ≤ notnaCount t j))
  ⟨keep.map (fun j => t.cols.getD j []),
   t.rows.map (fun r => (r.1, keep.map (fun j => r.2.getD j none)))⟩

/-- `df.rename(columns={old: new})`: rename every matching column. -/
def renameCol (t : Table) (old new : PyStr) : Table :=
  ⟨t.cols.map (fun c => if c == old then new else c), t.rows⟩

/-- Step 3's email-column detection (line 231): columns where some value,
stringified, contains '@'. -/
def emailColIdxs (t : Table) : List Nat :=
  (List.range t.cols.length).filter
    (fun j => t.rows.any (fun r => containsSub ['@'] (pyAstype (r.2.getD j none))))

/-- `drop_duplicates(subset=[email, phone])` keeping first occurrences. -/
def dropDupRowsAux (je jp : Nat) (seen : List (Option PyStr × Option PyStr)) :
    List (Nat × List (Option PyStr)) → List (Nat × List (Option PyStr))
  | [] => []
  | r :: rs =>
    if (r.2.getD je none, r.2.getD jp none) ∈ seen then dropDupRowsAux je jp seen rs
    else r :: dropDupRowsAux je jp ((r.2.getD je none, r.2.getD jp none) :: seen) rs

/-- Step 4 (line 241): `df[phone_col].astype(str).str.strip().apply(fix_phone_number)`. -/
def phoneFixCol (t : Table) (jp : Nat) : Table :=
  ⟨t.cols, t.rows.map (fun r => (r.1, r.2.set jp (some (phoneFixCell (r.2.getD jp none)))))⟩

/-- `df[name] = vals` — overwrite the column if present, else append it. -/
def setColByName (t : Table) (name : PyStr) (vals : List (Option PyStr)) : Table :=
  match t.cols.findIdx? (fun c => c == name) with
  | some j => ⟨t.cols, List.zipWith (fun r v => (r.1, r.2.set j v)) t.rows vals⟩
  | none => ⟨t.cols ++ [name], List.zipWith (fun r v => (r.1, r.2 ++ [v])) t.rows vals⟩

/-- Step 5 (line 244): derive the country column from the phone column. -/
def addCountryCol (t : Table) (pm : List (PyStr × PyStr)) (jp : Nat)
    (countryCol : PyStr) : Table :=
  setColByName t countryCol
    (t.rows.map (fun r => some (detect_country_val pm (r.2.getD jp none))))

/-- Step 6 (lines 247-250): drop rows whose first-email-column value,
stringified and lowercased, contains a blacklist entry. -/
def emailFilterStep (bl : List PyStr) (je : Nat) (t : Table) : Table :=
  ⟨t.cols,
   t.rows.filter
     (fun r => !(bl.any (fun b => containsSub b (lowerS (pyAstype (r.2.getD je none))))))⟩

/-- Step 7 (lines 253-256): `reset_index(drop=True)` then 1-based index. -/
def resetIndexStep (t : Table) : Table :=
  ⟨t.cols, (t.rows.map Prod.snd).enum.map (fun p => (p.1 + 1, p.2))⟩

/-- Steps 3-7 of `process_file`, run after the phone column was found and
renamed.  `email_cols` is computed once (line 231) and reused at step 6. -/
def pipelineRest (bl : List PyStr) (pm : List (PyStr × PyStr))
    (phoneCol countryCol : PyStr)
    (remove_duplicates filter_emails_step reset_index_step : Bool)
    (df : Table) : Table :=
  let ecols := emailColIdxs df
  let jp := (df.cols.findIdx? (fun c => c == phoneCol)).getD 0
  let df1 := if remove_duplicates && !ecols.isEmpty then
      ⟨df.cols, dropDupRowsAux (ecols.headD 0) jp [] df.rows⟩
    else df
  let df2 := phoneFixCol df1 jp
  let df3 := addCountryCol df2 pm jp countryCol
  let df4 := if filter_emails_step && !ecols.isEmpty then
      emailFilterStep bl (ecols.headD 0) df3
    else df3
  if reset_index_step then resetIndexStep df4 else df4

/-- `process_file` (lines 208-262): prune mostly-empty columns, find and
rename the phone column ('Column_1', falling back to 'Телефон2'), then run
the remaining steps; when neither phone column exists, report an error
(`st.error`) and return the partial table unchanged.  The second component
is the reported error message, `none` on success. -/
def process_file (bl : List PyStr) (pm : List (PyStr × PyStr))
    (phoneCol countryCol : PyStr)
    (remove_empty_cols remove_duplicates filter_emails_step reset_index_step : Bool)
    (t0 : Table) : Table × Option PyStr :=
  let df := if remove_empty_cols then pruneCols t0 else t0
  if df.cols.contains (pys "Column_1") then
    (pipelineRest bl pm phoneCol countryCol remove_duplicates filter_emails_step
       reset_index_step (renameCol df (pys "Column_1") phoneCol), none)
  else if df.cols.contains (pys "Телефон2") then
    (pipelineRest bl pm phoneCol countryCol remove_duplicates filter_emails_step
       reset_index_step (renameCol df (pys "Телефон2") phoneCol), none)
  else
    (df, some (pys "Column_1 is not present in the DataFrame."))

/-- Claim C7: when neither the primary phone column 'Column_1' nor the
fallback 'Телефон2' is present (after the optional empty-column pruning),
`process_file` reports an error and returns the partial table as-is: no
duplicate removal, phone normalization, country detection, email
filtering or index reset is applied, and no exception escapes (the
function returns normally). -/
theorem C7_missing_phone_aborts (bl : List PyStr) (pm : List (PyStr × PyStr))
    (phoneCol countryCol : PyStr)
    (rec rd fe ri : Bool) (t0 : Table)
    (h1 : (if rec then pruneCols t0 else t0).cols.contains (pys "Column_1") = false)
    (h2 : (if rec then pruneCols t0 else t0).cols.contains (pys "Телефон2") = false) :
    process_file bl pm phoneCol countryCol rec rd fe ri t0 =
      (if rec then pruneCols t0 else t0,
       some (pys "Column_1 is not present in the DataFrame.")) := by
  unfold process_file
  simp only [h1, h2, Bool.false_eq_true, if_false]

/-- Claim C7 witness: a one-column table with neither phone column. -/
theorem C7_missing_phone_witness :
    process_file [] [] (pys "Phone number") (pys "Country") false true true true
      ⟨[pys "A"], [(0, [some (pys "x")])]⟩ =
      (⟨[pys "A"], [(0, [some (pys "x")])]⟩,
       some (pys "Column_1 is not present in the DataFrame.")) :=
  C7_missing_phone_aborts [] [] (pys "Phone number") (pys "Country") false true true true
    ⟨[pys "A"], [(0, [some (pys "x")])]⟩ (by decide) (by decide)

theorem any_eq_false_iff {α : Type} (p : α → Bool) (l : List α) :
    (l.any p = false) ↔ ∀ x ∈ l, p x = false := by
  induction l with
  | nil => simp
  | cons a as ih => simp [List.any_cons, ih]

/-- A table whose email column (index 0) exists: the first row's value
contains '@'.  The second row's email is missing. -/
def cexTable : Table :=
  ⟨[pys "Email"], [(0, [some (pys "sales@acme.com")]), (1, [(none : Option PyStr)])]⟩

/-- Claim C2 counterexample: with blacklist ["an"], the email column
exists (index 0), yet the row with the MISSING email value is filtered
out: pandas stringifies NaN to "nan", which contains "an".  The claim
says a missing value is never filtered when an email column exists. -/
theorem C2_counterexample :
    emailColIdxs cexTable = [0] ∧
    ((1, [(none : Option PyStr)]) ∈ cexTable.rows ∧
     (1, [(none : Option PyStr)]) ∉ (emailFilterStep [pys "an"] 0 cexTable).rows) ∧
    (emailFilterStep [pys "an"] 0 cexTable).rows = [(0, [some (pys "sales@acme.com")])] := by
  decide

/-- Claim C2 (amended): email filtering is monotonic — the output rows are
a sublist (hence subset) of the input rows and the columns are unchanged;
every retained row's first-email-column value, stringified (NaN becomes
"nan") and lowercased, contains none of the blacklist entries as exact
substrings; and a row is retained precisely when that holds, so a row
with a missing email is kept if and only if no blacklist entry is a
substring of "nan" (full case-insensitivity holds when the blacklist
entries are lowercase). -/
theorem C2_amended_email_filter (bl : List PyStr) (je : Nat) (t : Table) :
    (emailFilterStep bl je t).cols = t.cols ∧
    (emailFilterStep bl je t).rows.Sublist t.rows ∧
    (∀ r ∈ (emailFilterStep bl je t).rows, ∀ b ∈ bl,
      containsSub b (lowerS (pyAstype (r.2.getD je none))) = false) ∧
    (∀ r ∈ t.rows, (r ∈ (emailFilterStep bl je t).rows ↔
      ∀ b ∈ bl, containsSub b (lowerS (pyAstype (r.2.getD je none))) = false)) := by
  refine ⟨rfl, List.filter_sublist _, ?_, ?_⟩
  · intro r hr b hb
    have h2 := (List.mem_filter.mp hr).2
    rw [Bool.not_eq_eq_eq_not, Bool.not_true] at h2
    exact (any_eq_false_iff _ bl).mp h2 b hb
  · intro r hr
    constructor
    · intro hmem b hb
      have h2 := (List.mem_filter.mp hmem).2
      rw [Bool.not_eq_eq_eq_not, Bool.not_true] at h2
      exact (any_eq_false_iff _ bl).mp h2 b hb
    · intro hall
      refine List.mem_filter.mpr ⟨hr, ?_⟩
      rw [Bool.not_eq_eq_eq_not, Bool.not_true]
      exact (any_eq_false_iff _ bl).mpr hall

/-- The spec's own example table for email filtering. -/
def demoTable : Table :=
  ⟨[pys "Email"], [(0, [some (pys "sales@acme.com")]), (1, [some (pys "jobs@hr.com")])]⟩

/-- Claim C2 witness: with blacklist ["hr"], sales@acme.com is retained
and its lowered value contains no blacklist entry. -/
theorem C2_amended_witness :
    (emailFilterStep [pys "hr"] 0 demoTable).rows.Sublist demoTable.rows ∧
    containsSub (pys "hr")
      (lowerS (pyAstype (((0, [some (pys "sales@acme.com")]) :
        Nat × List (Option PyStr)).2.getD 0 none))) = false := by
  refine ⟨(C2_amended_email_filter [pys "hr"] 0 demoTable).2.1, ?_⟩
  exact (C2_amended_email_filter [pys "hr"] 0 demoTable).2.2.1
    (0, [some (pys "sales@acme.com")]) (by decide) (pys "hr") (by decide)
